import Mathlib

/-!
Verification of the weekly-report pipeline.

A shallow embedding of the core of the `weekly-report` repository
(`src/granola_scanner.py`, `src/google_calendar.py`, `src/report_generator.py`,
`src/ollama_client.py`, `weekly_report.py`) together with theorems settling
the behavioural claims about the note-to-meeting matcher, the domain
resolver, the context builder, the report assembler and the synthesis step.

Conventions used throughout the embedding:
- Python strings are Lean `String`s; all character-level work is done on
  `List Char` so that every definition reduces in the kernel.
- Python dicts are association lists `List (key × value)` in insertion
  order; `dictInsert` models `d[k] = v` (overwrite in place, else append)
  and `lookupAL` models `d[k]` / `k in d`.
- Python sets are modelled by the list of their elements in iteration
  order; Python guarantees no particular iteration order for a `set`, so
  theorems about sets quantify over that order.
- `rapidfuzz.fuzz.token_sort_ratio` is the token-sorted normalized InDel
  similarity `200 * lcs / (|a| + |b|)`, a rational in `[0, 100]`
  (`tokenSortScore`).  The comparison `ratio >= threshold` from the source
  is embedded as the exact integer comparison
  `threshold * (|a| + |b|) <= 200 * lcs` (`scoreAccept`), which the lemma
  `scoreAccept_iff` proves equivalent to `threshold ≤ tokenSortScore`.
-/

/-! ### Python-style string primitives -/

/-- ASCII lower-casing of one character, as `str.lower` acts on the ASCII
range (all inputs in this development are ASCII). -/
def charLower (c : Char) : Char :=
  if 65 ≤ c.toNat ∧ c.toNat ≤ 90 then Char.ofNat (c.toNat + 32) else c

/-- Python `s.lower()`. -/
def pyLower (s : String) : String := ⟨s.toList.map charLower⟩

/-- Python `\s` for the ASCII range (space, tab, newline, CR, VT, FF). -/
def isPyWs (c : Char) : Bool :=
  c = ' ' || c = '\t' || c = '\n' || c = '\r' || c = '\x0b' || c = '\x0c'

/-- Split a character list at every character satisfying the separator
predicate, keeping empty segments, like Python `str.split(sep)`. -/
def splitAtWs : List Char → List (List Char)
  | [] => [[]]
  | c :: rest =>
    match splitAtWs rest with
    | [] => [[c]]
    | t :: ts => if isPyWs c then [] :: t :: ts else (c :: t) :: ts

/-- Python `s.split()` with no argument: split on whitespace runs and drop
empty tokens. -/
def tokenize (s : List Char) : List (List Char) :=
  (splitAtWs s).filter (· ≠ [])

/-- Code-point comparison of characters, as Python compares characters. -/
def chLt (a b : Char) : Bool := a.toNat < b.toNat

/-- Lexicographic code-point comparison of strings as character lists,
matching Python string `<`. -/
def listLt : List Char → List Char → Bool
  | [], [] => false
  | [], _ :: _ => true
  | _ :: _, [] => false
  | a :: as, b :: bs => if chLt a b then true else if chLt b a then false else listLt as bs

/-- Insert into a sorted token list (ascending, stable). -/
def insertTok (x : List Char) : List (List Char) → List (List Char)
  | [] => [x]
  | y :: ys => if listLt y x then y :: insertTok x ys else x :: y :: ys

/-- Stable insertion sort of a token list, matching Python `sorted`. -/
def sortToks : List (List Char) → List (List Char)
  | [] => []
  | x :: xs => insertTok x (sortToks xs)

/-- Join character-list segments with a single separator character,
like Python `sep.join(parts)` for a one-character separator. -/
def joinChar (sep : Char) : List (List Char) → List Char
  | [] => []
  | [t] => t
  | t :: ts => t ++ sep :: joinChar sep ts

/-- The token-sort preprocessing of `rapidfuzz.fuzz.token_sort_ratio`:
split on whitespace, sort the tokens, rejoin with single spaces. -/
def tokenSortJoin (s : List Char) : List Char := joinChar ' ' (sortToks (tokenize s))

/-- One cell pass of the LCS dynamic program: given the previous row and the
running values (`diag`, `left`), produce the rest of the current row. -/
def lcsAux (x : Char) : List Char → ℕ → List ℕ → ℕ → List ℕ
  | [], _, _, _ => []
  | _ :: _, _, [], _ => []
  | c :: cs, diag, pj :: prest, left =>
    let cur := if x = c then diag + 1 else max pj left
    cur :: lcsAux x cs pj prest cur

/-- Advance the LCS dynamic program by one character of the first string. -/
def lcsRow (y : List Char) (prev : List ℕ) (x : Char) : List ℕ :=
  match prev with
  | [] => []
  | p0 :: ptail => 0 :: lcsAux x y p0 ptail 0

/-- Length of the longest common subsequence of two character lists.
The InDel (insert/delete-only edit) distance used by `rapidfuzz` is
`|xs| + |ys| - 2 * lcsLen xs ys`. -/
def lcsLen (xs ys : List Char) : ℕ :=
  ((xs.foldl (lcsRow ys) (List.replicate (ys.length + 1) 0)).getLast?).getD 0

/-- The acceptance test `fuzz.token_sort_ratio(a, b) >= threshold` from
`granola_scanner.py`, embedded as an exact integer comparison so that it is
kernel-computable.  `scoreAccept_iff` proves it equivalent to
`threshold ≤ tokenSortScore a b`. -/
def scoreAccept (threshold : ℕ) (a b : List Char) : Bool :=
  if (tokenSortJoin a).length + (tokenSortJoin b).length = 0 then threshold ≤ 100
  else threshold * ((tokenSortJoin a).length + (tokenSortJoin b).length) ≤
    200 * lcsLen (tokenSortJoin a) (tokenSortJoin b)

/-- `rapidfuzz.fuzz.token_sort_ratio(a, b)` as an exact rational:
`100 * (lensum - indel_distance) / lensum = 200 * lcs / lensum` over the
token-sorted strings; `100` when both are empty. -/
def tokenSortScore (a b : List Char) : ℚ :=
  if (tokenSortJoin a).length + (tokenSortJoin b).length = 0 then 100
  else (200 * lcsLen (tokenSortJoin a) (tokenSortJoin b) : ℚ) /
    (((tokenSortJoin a).length + (tokenSortJoin b).length : ℕ) : ℚ)

/-- `needleLeads needle hay`: `hay` begins with `needle`. -/
def needleLeads : List Char → List Char → Bool
  | [], _ => true
  | _ :: _, [] => false
  | a :: as, b :: bs => a = b && needleLeads as bs

/-- Python `needle in hay` (substring containment) on character lists. -/
def pyInChars (needle : List Char) : List Char → Bool
  | [] => needle.isEmpty
  | c :: rest => needleLeads needle (c :: rest) || pyInChars needle rest

/-- Python `needle in hay` on strings. -/
def pyIn (needle hay : String) : Bool := pyInChars needle.toList hay.toList

/-- Python `s.startswith(needle)`. -/
def pyStartsWith (needle s : String) : Bool := needleLeads needle.toList s.toList

/-- Strip leading and trailing Python whitespace from a character list. -/
def trimWs (l : List Char) : List Char :=
  ((l.dropWhile isPyWs).reverse.dropWhile isPyWs).reverse

/-- Python `s.strip()`. -/
def pyStrip (s : String) : String := ⟨trimWs s.toList⟩

/-- Python `sep.join(parts)` for string parts. -/
def pyJoin (sep : String) : List String → String
  | [] => ""
  | [p] => p
  | p :: ps => p ++ sep ++ pyJoin sep ps

/-- Split a character list at every occurrence of a separator character,
keeping empty segments, like Python `str.split("\n")`. -/
def splitOnChar (sep : Char) : List Char → List (List Char)
  | [] => [[]]
  | c :: rest =>
    match splitOnChar sep rest with
    | [] => [[c]]
    | t :: ts => if c = sep then [] :: t :: ts else (c :: t) :: ts

/-! ### Data model (`granola_scanner.py`, `google_calendar.py`) -/

/-- A Granola note as normalized by `scan_drive_notes` /
`parse_granola_filename`: date, attendee names, company and topic labels,
free-text content and the original filename. -/
structure Note where
  date : String
  attendees : List String
  company : String
  topic : String
  content : String
  filename : String
deriving DecidableEq

/-- A calendar meeting as produced by `fetch_meetings`.  `domains` is the
set of external attendee domains; a Python `set` carries no guaranteed
iteration order, so it is modelled as the list of its elements in
iteration order. -/
structure Meeting where
  date : String
  title : String
  attendees : List String
  domains : List String
  startTime : String
  endTime : String
  eventId : String
deriving DecidableEq

/-- A note extended with an optional external calendar-event identifier.
The spec postulates such an identifier on notes; the source `Note` shape
has no identifier field, so this wrapper exists only to state the
spec-side exact-identifier strategy. -/
structure SpecNote where
  base : Note
  externalId : Option String
deriving DecidableEq

/-- Spec-side definition, following the spec's words: the exact
external-id strategy matches a note whose external calendar-event
identifier equals the meeting's. -/
def specExactIdMatch (meetingEventId : String) (notes : List SpecNote) : Option SpecNote :=
  notes.find? (fun n => n.externalId == some meetingEventId)

/-- Python dict lookup `d[k]` / `k in d` on an association list. -/
def lookupAL {α : Type} : List (String × α) → String → Option α
  | [], _ => none
  | (k, v) :: rest, key => if k = key then some v else lookupAL rest key

/-- Python dict assignment `d[k] = v`: overwrite in place if the key is
present, else append. -/
def dictInsert {α : Type} : List (String × α) → String → α → List (String × α)
  | [], k, v => [(k, v)]
  | (k0, v0) :: rest, k, v =>
    if k0 = k then (k, v) :: rest else (k0, v0) :: dictInsert rest k v

/-! ### The note matcher (`granola_scanner.match_meeting_to_note`) -/

/-- The date gate of `match_meeting_to_note`:
`{k: v for k, v in notes.items() if v["date"] == meeting_date}`. -/
def dateFilter (meetingDate : String) (notes : List (String × Note)) : List (String × Note) :=
  notes.filter (fun kv => kv.2.date == meetingDate)

/-- The attendee-name normalization inside the attendee strategy:
`meeting_attendee.split("@")[0].replace(".", " ")` when the attendee
string contains `@`, the attendee string itself otherwise. -/
def emailNameOf (ma : String) : String :=
  if ma.toList.contains '@' then
    ⟨(ma.toList.takeWhile (· ≠ '@')).map (fun c => if c = '.' then ' ' else c)⟩
  else ma

/-- Strategy 1 of `match_meeting_to_note` (lines 193-209): for each
date-gated note with a non-empty attendee list, for each meeting attendee,
for each note attendee, accept on
`fuzz.token_sort_ratio(email_name.lower(), note_attendee.lower()) >= threshold`. -/
def attendeePass (threshold : ℕ) (meetingAttendees : List String)
    (dateNotes : List (String × Note)) : Option Note :=
  dateNotes.findSome? fun kv =>
    if kv.2.attendees.isEmpty then none
    else meetingAttendees.findSome? fun ma =>
      kv.2.attendees.findSome? fun na =>
        if scoreAccept threshold (pyLower (emailNameOf ma)).toList (pyLower na).toList then
          some kv.2
        else none

/-- Strategy 2 of `match_meeting_to_note` (lines 211-223): per date-gated
note, accept on a fuzzy company-label score, else on the company name
being a case-insensitive substring of a note attendee name. -/
def companyPass (threshold : ℕ) (companyName : String)
    (dateNotes : List (String × Note)) : Option Note :=
  dateNotes.findSome? fun kv =>
    if kv.2.company ≠ "" &&
        scoreAccept threshold (pyLower companyName).toList (pyLower kv.2.company).toList then
      some kv.2
    else if kv.2.attendees.any (fun a => pyIn (pyLower companyName) (pyLower a)) then
      some kv.2
    else none

/-- The synthesized descriptor used by the title strategy:
`f"{company} {topic} {' '.join(attendees)}"`. -/
def noteDesc (n : Note) : String :=
  n.company ++ " " ++ n.topic ++ " " ++ pyJoin " " n.attendees

/-- Strategy 3 of `match_meeting_to_note` (lines 225-241): per date-gated
note, accept if the note company is a case-insensitive substring of the
meeting title, else if a note attendee name is, else on a fuzzy score of
the title against the synthesized descriptor. -/
def titlePass (threshold : ℕ) (meetingTitle : String)
    (dateNotes : List (String × Note)) : Option Note :=
  dateNotes.findSome? fun kv =>
    if kv.2.company ≠ "" && pyIn (pyLower kv.2.company) (pyLower meetingTitle) then
      some kv.2
    else if kv.2.attendees.any (fun a => pyIn (pyLower a) (pyLower meetingTitle)) then
      some kv.2
    else if scoreAccept threshold (pyLower meetingTitle).toList (pyLower (noteDesc kv.2)).toList then
      some kv.2
    else none

/-- `granola_scanner.match_meeting_to_note`: date gate (with early return
on an empty date bucket), then the attendee strategy, then - when the
resolved company name is non-empty - the company strategy, then - when the
meeting title is non-empty - the title strategy. -/
def matchMeetingToNote (meetingDate meetingTitle : String) (meetingAttendees : List String)
    (companyName : String) (notes : List (String × Note)) (threshold : ℕ) : Option Note :=
  if (dateFilter meetingDate notes).isEmpty then none
  else
    match attendeePass threshold meetingAttendees (dateFilter meetingDate notes) with
    | some note => some note
    | none =>
      match (if companyName == "" then none
             else companyPass threshold companyName (dateFilter meetingDate notes)) with
      | some note => some note
      | none =>
        if meetingTitle == "" then none
        else titlePass threshold meetingTitle (dateFilter meetingDate notes)

/-- The company-name resolution loop of `get_notes_for_meetings`
(lines 275-280): first domain of the meeting, in iteration order, that is a
key of the deals mapping; `""` when none is. -/
def resolveCompany (domains : List String) (deals : List (String × String)) : String :=
  match domains with
  | [] => ""
  | d :: rest =>
    match lookupAL deals d with
    | some name => name
    | none => resolveCompany rest deals

/-- Spec-side definition, following the spec's words: "sort domains
lexically before first-match" so that resolution is reproducible. -/
def resolveCompanySpecSorted (domains : List String) (deals : List (String × String)) : String :=
  resolveCompany ((sortToks (domains.map String.toList)).map (fun l => (⟨l⟩ : String))) deals

/-- The per-meeting body of `get_notes_for_meetings`: resolve the company
name from the deals config, then run the matcher with the default
threshold 60. -/
def matchForMeeting (m : Meeting) (deals : List (String × String))
    (notes : List (String × Note)) : Option Note :=
  matchMeetingToNote m.date m.title m.attendees (resolveCompany m.domains deals) notes 60

/-- `granola_scanner.get_notes_for_meetings`, with the scanned notes
passed in as input (in the source they come from `scan_drive_notes`):
returns the event-id-keyed mapping of meetings to their matched notes. -/
def getNotesForMeetings (meetings : List Meeting) (deals : List (String × String))
    (notes : List (String × Note)) : List (String × Meeting × Note) :=
  if notes.isEmpty then []
  else
    meetings.foldl
      (fun matched m =>
        match matchForMeeting m deals notes with
        | some note => dictInsert matched m.eventId (m, note)
        | none => matched)
      []

/-! ### The calendar client (`google_calendar.py`) -/

/-- One entry of an event's attendee list (`attendee.get("email", "")`). -/
structure CalAttendee where
  email : String
deriving DecidableEq

/-- A raw calendar event as consumed by `fetch_meetings`: optional fields
model keys that may be absent from the event dict. -/
structure CalEvent where
  colorId : Option String
  startDateTime : Option String
  endDateTime : Option String
  summary : Option String
  attendees : List CalAttendee
  id : String
deriving DecidableEq

/-- `google_calendar.extract_domain`: `email.split("@")[1].lower()` when the
address contains `@` (the segment between the first and second `@`), else `""`. -/
def extractDomain (email : String) : String :=
  if email.toList.contains '@' then
    pyLower ⟨(((email.toList.dropWhile (· ≠ '@')).drop 1).takeWhile (· ≠ '@'))⟩
  else ""

/-- `google_calendar.is_internal_only`: `True` for an empty attendee list,
else `True` exactly when no attendee has a non-empty domain different from
the internal domain. -/
def isInternalOnly (attendees : List CalAttendee) (internalDomain : String) : Bool :=
  if attendees.isEmpty then true
  else attendees.all fun a =>
    !(extractDomain a.email != "" && extractDomain a.email != internalDomain)

/-- `google_calendar.get_external_domains`: the set of non-empty attendee
domains different from the internal domain, modelled as a deduplicated
list in first-insertion order (a Python set guarantees no iteration order). -/
def externalDomains (attendees : List CalAttendee) (internalDomain : String) : List String :=
  attendees.foldl
    (fun acc a =>
      if extractDomain a.email != "" && extractDomain a.email != internalDomain &&
          !(acc.contains (extractDomain a.email)) then
        acc ++ [extractDomain a.email]
      else acc)
    []

/-- Membership of a `colorId` in `EXCLUDED_COLOR_IDS = {"1", "3", "6", "8"}`;
an absent `colorId` (`None`) is not a member. -/
def excludedColor : Option String → Bool
  | some c => c == "1" || c == "3" || c == "6" || c == "8"
  | none => false

/-- The per-event body of the `fetch_meetings` loop: skip excluded colors,
all-day events (no `dateTime`), and internal-only meetings; otherwise build
the meeting record. -/
def processEvent (internalDomain : String) (e : CalEvent) : Option Meeting :=
  if excludedColor e.colorId then none
  else
    match e.startDateTime with
    | none => none
    | some st =>
      if isInternalOnly e.attendees internalDomain then none
      else some
        { date := ⟨st.toList.take 10⟩
          title := e.summary.getD "No Title"
          attendees := e.attendees.map (·.email)
          domains := externalDomains e.attendees internalDomain
          startTime := st
          endTime := e.endDateTime.getD ""
          eventId := e.id }

/-- `google_calendar.fetch_meetings` with the fetched raw events passed in
as input (in the source they come from the Calendar API). -/
def fetchMeetings (events : List CalEvent) (internalDomain : String) : List Meeting :=
  events.filterMap (processEvent internalDomain)

/-! ### The report assembler (`report_generator.py`) -/

/-- `re.sub(r"^[-*•]\s*", "", line)`: drop one leading bullet character and
the whitespace run after it. -/
def stripBullet (l : List Char) : List Char :=
  match l with
  | c :: rest => if c = '-' ∨ c = '*' ∨ c = '•' then rest.dropWhile isPyWs else l
  | [] => []

/-- `re.sub(r"^#+\s*", "", line)`: drop a leading run of `#` characters and
the whitespace run after it. -/
def stripHashes (l : List Char) : List Char :=
  match l with
  | '#' :: _ => (l.dropWhile (· = '#')).dropWhile isPyWs
  | _ => l

/-- `re.sub(r"\*\*([^*]+)\*\*", r"\1", line)`: left-to-right non-overlapping
replacement; at `**` followed by a non-empty star-free run followed by `**`,
keep the run and continue after the match, else advance one character.
Fuel-driven; the initial fuel is the length of the list, which the scan
never exhausts since each step consumes at least one character. -/
def replaceBoldPairs : ℕ → List Char → List Char
  | 0, l => l
  | fuel + 1, '*' :: '*' :: rest =>
    match rest.span (· ≠ '*') with
    | (run, rem) =>
      if run.isEmpty then '*' :: replaceBoldPairs fuel ('*' :: rest)
      else
        match rem with
        | '*' :: '*' :: rest2 => run ++ replaceBoldPairs fuel rest2
        | _ => '*' :: replaceBoldPairs fuel ('*' :: rest)
  | fuel + 1, c :: rest => c :: replaceBoldPairs fuel rest
  | _ + 1, [] => []

/-- `re.sub(r"\*([^*]+)\*", r"\1", line)`: like `replaceBoldPairs` with
single-star delimiters. -/
def replaceItalicPairs : ℕ → List Char → List Char
  | 0, l => l
  | fuel + 1, '*' :: rest =>
    match rest.span (· ≠ '*') with
    | (run, rem) =>
      if run.isEmpty then '*' :: replaceItalicPairs fuel rest
      else
        match rem with
        | '*' :: rest2 => run ++ replaceItalicPairs fuel rest2
        | _ => '*' :: replaceItalicPairs fuel rest
  | fuel + 1, c :: rest => c :: replaceItalicPairs fuel rest
  | _ + 1, [] => []

/-- `re.sub(r"\s+", " ", line)`: collapse every whitespace run to one space. -/
def collapseWs : List Char → List Char
  | [] => []
  | [c] => if isPyWs c then [' '] else [c]
  | c :: c2 :: rest =>
    if isPyWs c then
      if isPyWs c2 then collapseWs (c2 :: rest)
      else ' ' :: collapseWs (c2 :: rest)
    else c :: collapseWs (c2 :: rest)

/-- The per-line body of `report_generator.clean_content`: strip, drop empty
lines, strip one leading bullet, strip leading hashes, remove bold then
italic star pairs, collapse whitespace and strip, drop if empty. -/
def cleanLine (line : List Char) : Option (List Char) :=
  let l0 := trimWs line
  if l0.isEmpty then none
  else
    let l1 := stripBullet l0
    let l2 := stripHashes l1
    let l3 := replaceBoldPairs l2.length l2
    let l4 := replaceItalicPairs l3.length l3
    let l5 := trimWs (collapseWs l4)
    if l5.isEmpty then none else some l5

/-- `report_generator.clean_content`: apply `cleanLine` to every line and
rejoin the surviving lines with newlines. -/
def cleanContent (text : String) : String :=
  ⟨joinChar '\n' ((splitOnChar '\n' text.toList).filterMap cleanLine)⟩

/-- The known section labels of `parse_content_sections`, in the order of
the regex alternation. -/
def sectionLabels : List String :=
  ["Activity", "Deal Status", "Status", "Risks", "Risk",
   "Action Items", "Action Item", "Next Steps", "Summary",
   "Notes", "Key Points", "Concerns", "Blockers"]

/-- Case-insensitive prefix test (the label pattern is compiled with
`re.IGNORECASE`). -/
def ciLeads : List Char → List Char → Bool
  | [], _ => true
  | _ :: _, [] => false
  | p :: ps, t :: ts => charLower p = charLower t && ciLeads ps ts

/-- Try one label of the pattern `(label)\s*[:\-]\s*` at the head of `s`:
on success return the matched label text (original case, `match.group(1)`)
and the remainder after the separator and trailing whitespace. -/
def tryLabel (s : List Char) (label : String) : Option (List Char × List Char) :=
  if ciLeads label.toList s then
    match (s.drop label.toList.length).dropWhile isPyWs with
    | c :: rest =>
      if c = ':' ∨ c = '-' then some (s.take label.toList.length, rest.dropWhile isPyWs)
      else none
    | [] => none
  else none

/-- Try the label alternation at the head of `s`, in alternation order. -/
def matchLabelAt (s : List Char) : Option (List Char × List Char) :=
  sectionLabels.findSome? (tryLabel s)

/-- Close the running section when the scan ends: keep it only when its
stripped content is non-empty. -/
def finishScan (acc : List Char) (lastLabel : Option (List Char))
    (secs : List (String × String)) : List (String × String) :=
  match lastLabel with
  | some lab =>
    if (trimWs acc).isEmpty then secs else secs ++ [((⟨lab⟩ : String), (⟨trimWs acc⟩ : String))]
  | none => secs

/-- The `re.finditer` scan of `parse_content_sections`: walk the text left
to right; at each label match close the previous section (content between
the previous match end and this match start, stripped, kept only if
non-empty) and open a new one.  Fuel-driven; the initial fuel exceeds the
text length, which the scan never exhausts. -/
def scanSections : ℕ → List Char → List Char → Option (List Char) →
    List (String × String) → List (String × String)
  | _, [], acc, lastLabel, secs => finishScan acc lastLabel secs
  | 0, rest, acc, lastLabel, secs => finishScan (acc ++ rest) lastLabel secs
  | fuel + 1, c :: rest, acc, lastLabel, secs =>
    match matchLabelAt (c :: rest) with
    | some (labTxt, after) =>
      scanSections fuel after [] (some labTxt) (finishScan acc lastLabel secs)
    | none => scanSections fuel rest (acc ++ [c]) lastLabel secs

/-- `report_generator.parse_content_sections`: clean the text, scan it for
labelled sections, and fall back to a single `Summary` section when no
label was found and the cleaned text is non-empty. -/
def parseContentSections (text : String) : List (String × String) :=
  if (scanSections ((cleanContent text).toList.length + 1) (cleanContent text).toList
      [] none []).isEmpty && pyStrip (cleanContent text) != "" then
    [("Summary", pyStrip (cleanContent text))]
  else
    scanSections ((cleanContent text).toList.length + 1) (cleanContent text).toList [] none []

/-! ### The orchestrator (`weekly_report.py`) and the Ollama client -/

/-- The data bundle produced by `collect_data` and consumed by
`build_context`: the matched meetings/notes and the three per-domain
correspondence mappings. -/
structure ReportData where
  meetingsWithNotes : List (String × Meeting × Note)
  dealEmails : List (String × String)
  agencyEmails : List (String × String)
  techEmails : List (String × String)
deriving DecidableEq

/-- The meeting header prefixed to a matched note's content:
`f"=== MEETING: {meeting['date']} - {meeting['title']} ==="`. -/
def meetingHeader (m : Meeting) : String :=
  "=== MEETING: " ++ m.date ++ " - " ++ m.title ++ " ==="

/-- The `deal_emails` / `agency_emails` / `tech_emails` chain of
`build_context` (lines 226-232): first mapping that contains the domain. -/
def entityEmails (entityDomain : String) (data : ReportData) : Option String :=
  match lookupAL data.dealEmails entityDomain with
  | some e => some e
  | none =>
    match lookupAL data.agencyEmails entityDomain with
    | some e => some e
    | none => lookupAL data.techEmails entityDomain

/-- The `if emails:` block of `build_context`: append the correspondence
header and blob only when the looked-up correspondence is truthy (present
and non-empty). -/
def appendEmails (emails : Option String) (parts : List String) : List String :=
  match emails with
  | some e => if e == "" then parts else parts ++ ["=== EMAIL CORRESPONDENCE ===", e]
  | none => parts

/-- `weekly_report.build_context`: one header-plus-content-plus-blank block
per matched note whose meeting's domain set contains the entity's domain,
then the correspondence block, joined with newlines.  (`entity_name` is a
parameter of the source function that its body does not read.) -/
def buildContext (entityDomain entityName : String) (data : ReportData) : String :=
  pyJoin "\n"
    (appendEmails (entityEmails entityDomain data)
      (data.meetingsWithNotes.foldl
        (fun acc kv =>
          if kv.2.1.domains.contains entityDomain then
            acc ++ [meetingHeader kv.2.1, kv.2.2.content, ""]
          else acc)
        []))

/-- One entity-class loop of `weekly_report.synthesize_updates`,
parameterized by the synthesis backend.  The first component is the
updates mapping the source builds; the second instruments the loop with
the list of `(context, name)` arguments of the `synthesize` calls actually
made, which in the source happen exactly inside the `if context.strip():`
branch. -/
def synthPassFull (synth : String → String → String → String) (entityType : String)
    (entities : List (String × String)) (data : ReportData) :
    List (String × String) × List (String × String) :=
  entities.foldl
    (fun acc entry =>
      let context := buildContext entry.1 entry.2 data
      if pyStrip context != "" then
        let summary := synth context entry.2 entityType
        ((if !(pyStartsWith "Error:" summary) then dictInsert acc.1 entry.2 summary
          else acc.1),
         acc.2 ++ [(context, entry.2)])
      else acc)
    ([], [])

/-- The updates mapping built by one entity-class loop of
`synthesize_updates`. -/
def synthPass (synth : String → String → String → String) (entityType : String)
    (entities : List (String × String)) (data : ReportData) : List (String × String) :=
  (synthPassFull synth entityType entities data).1

/-- The outcome of the HTTP request made by `ollama_client.synthesize`:
a timeout, a connection error, or a response with a status code and the
`response` field of its JSON body. -/
inductive OllamaOutcome where
  | timeout : OllamaOutcome
  | connectError : String → OllamaOutcome
  | httpResponse : ℕ → String → OllamaOutcome
deriving DecidableEq

/-- The response handling of `ollama_client.synthesize` (lines 125-149):
every failure path returns an `"Error:"`-prefixed string instead of
raising; a 200 response returns the stripped `response` field. -/
def synthesizeFromOutcome : OllamaOutcome → String
  | OllamaOutcome.timeout => "Error: Ollama request timed out"
  | OllamaOutcome.connectError e => "Error: Could not connect to Ollama - " ++ e
  | OllamaOutcome.httpResponse status responseText =>
    if status != 200 then "Error: Ollama returned status " ++ toString status
    else pyStrip responseText

/-! ### Concrete fixtures used by witnesses and counterexamples -/

/-- An ISO-filename note whose only identity signal is its attendee name. -/
def noteJohn : Note :=
  { date := "2025-01-20", attendees := ["John Smith"], company := "", topic := ""
    content := "Discussed pricing.", filename := "2025-01-20T08:00:00-06:00 - John Smith" }

/-- A same-day note whose every text field is dissimilar from
`meetingC2`'s. -/
def noteC2 : Note :=
  { date := "2025-01-20", attendees := ["Zzz Qqq"], company := "", topic := ""
    content := "Roadmap sync.", filename := "2025-01-20T09:00:00-06:00 - Zzz Qqq" }

/-- A meeting whose text fields are dissimilar from `noteC2`'s. -/
def meetingC2 : Meeting :=
  { date := "2025-01-20", title := "Quarterly Budget Review", attendees := ["x@y.com"]
    domains := ["customer.example"], startTime := "2025-01-20T09:00:00-06:00"
    endTime := "2025-01-20T10:00:00-06:00", eventId := "evt-1" }

/-- `noteC2` wrapped with the spec-postulated external identifier, equal to
`meetingC2.eventId`. -/
def specNoteC2 : SpecNote := { base := noteC2, externalId := some "evt-1" }

/-- A simple-filename note carrying only a company label. -/
def noteAcme : Note :=
  { date := "2025-01-20", attendees := [], company := "Acme Corp", topic := "Sync"
    content := "Pricing discussion.", filename := "2025-01-20_Acme-Corp_Sync.txt" }

/-- First of two same-day meetings that both match `noteAcme`. -/
def meetingAcme1 : Meeting :=
  { date := "2025-01-20", title := "Acme Sync", attendees := ["alice@acme.com"]
    domains := ["acme.com"], startTime := "", endTime := "", eventId := "acme-evt-1" }

/-- Second of two same-day meetings that both match `noteAcme`. -/
def meetingAcme2 : Meeting :=
  { date := "2025-01-20", title := "Acme Sync", attendees := ["bob@acme.com"]
    domains := ["acme.com"], startTime := "", endTime := "", eventId := "acme-evt-2" }

/-- Deals config mapping the Acme domain to its display name. -/
def dealsAcme : List (String × String) := [("acme.com", "Acme Corp")]

/-- Deals config tracking two domains with distinct display names. -/
def dealsC5 : List (String × String) := [("acme.com", "Acme Corp"), ("zeta.com", "Zeta Inc")]

/-- Report data holding exactly one matched note and no correspondence. -/
def dataC7 : ReportData :=
  { meetingsWithNotes := [("acme-evt-1", (meetingAcme1, noteAcme))]
    dealEmails := [], agencyEmails := [], techEmails := [] }

/-- A note whose single attendee name scores exactly 25 against the
meeting-attendee string "abbb" (lcs 1, lengths 4 + 4). -/
def noteScore25 : Note :=
  { date := "2025-01-20", attendees := ["accc"], company := "", topic := ""
    content := "", filename := "" }

/-- A note whose single attendee name scores exactly 24 against the
meeting-attendee string "aaabbbbbbbbb" (lcs 3, lengths 12 + 13). -/
def noteScore24 : Note :=
  { date := "2025-01-20", attendees := ["aaacccccccccc"], company := "", topic := ""
    content := "", filename := "" }

/-- A calendar event with an empty attendee list. -/
def eventNoAttendees : CalEvent :=
  { colorId := none, startDateTime := some "2025-01-20T09:00:00-06:00"
    endDateTime := none, summary := some "Focus block", attendees := [], id := "evt-na" }

/-! ### Helper lemmas -/

/-- The integer acceptance test of the embedding is exactly the rational
comparison `threshold ≤ token_sort_ratio` from the source. -/
theorem scoreAccept_iff (t : ℕ) (a b : List Char) :
    scoreAccept t a b = true ↔ (t : ℚ) ≤ tokenSortScore a b := by
  unfold scoreAccept tokenSortScore
  by_cases h : (tokenSortJoin a).length + (tokenSortJoin b).length = 0
  · simp [h]
  · simp only [h, if_false, decide_eq_true_eq]
    rw [le_div_iff₀ (by positivity)]
    push_cast
    exact_mod_cast Iff.rfl

/-- Any note returned by the attendee strategy is one of the candidates. -/
theorem attendeePass_mem {t : ℕ} {attns : List String} {dn : List (String × Note)} {n : Note}
    (h : attendeePass t attns dn = some n) : ∃ kv ∈ dn, n = kv.2 := by
  obtain ⟨kv, hkv, hf⟩ := List.exists_of_findSome?_eq_some h
  refine ⟨kv, hkv, ?_⟩
  cases he : kv.2.attendees.isEmpty
  · rw [he] at hf
    simp only [Bool.false_eq_true, if_false] at hf
    obtain ⟨ma, _, hma⟩ := List.exists_of_findSome?_eq_some hf
    obtain ⟨na, _, hna⟩ := List.exists_of_findSome?_eq_some hma
    split at hna
    · exact (Option.some.inj hna).symm
    · cases hna
  · rw [he] at hf
    simp at hf

/-- Any note returned by the company strategy is one of the candidates. -/
theorem companyPass_mem {t : ℕ} {c : String} {dn : List (String × Note)} {n : Note}
    (h : companyPass t c dn = some n) : ∃ kv ∈ dn, n = kv.2 := by
  obtain ⟨kv, hkv, hf⟩ := List.exists_of_findSome?_eq_some h
  refine ⟨kv, hkv, ?_⟩
  split at hf
  · exact (Option.some.inj hf).symm
  · split at hf
    · exact (Option.some.inj hf).symm
    · cases hf

/-- Any note returned by the title strategy is one of the candidates. -/
theorem titlePass_mem {t : ℕ} {ttl : String} {dn : List (String × Note)} {n : Note}
    (h : titlePass t ttl dn = some n) : ∃ kv ∈ dn, n = kv.2 := by
  obtain ⟨kv, hkv, hf⟩ := List.exists_of_findSome?_eq_some h
  refine ⟨kv, hkv, ?_⟩
  split at hf
  · exact (Option.some.inj hf).symm
  · split at hf
    · exact (Option.some.inj hf).symm
    · split at hf
      · exact (Option.some.inj hf).symm
      · cases hf

/-- Every entry of the date-gated candidate list carries the meeting's
date. -/
theorem date_of_mem_dateFilter {d : String} {notes : List (String × Note)}
    {kv : String × Note} (h : kv ∈ dateFilter d notes) : kv.2.date = d := by
  have h2 := (List.mem_filter.mp h).2
  simpa using h2

/-! ### Claim C1 -/

/-- Claim C1: for every meeting and every collection of notes, the matcher
returns a note only if that note's date field equals the meeting's date;
no pairing is ever produced across different dates, whatever the attendee,
company, or title text. -/
theorem date_gate_holds (d title : String) (attns : List String) (comp : String)
    (notes : List (String × Note)) (t : ℕ) (n : Note)
    (h : matchMeetingToNote d title attns comp notes t = some n) : n.date = d := by
  unfold matchMeetingToNote at h
  split at h
  · exact Option.noConfusion h
  · cases ha : attendeePass t attns (dateFilter d notes) with
    | some m =>
      simp only [ha, Option.some.injEq] at h
      subst h
      obtain ⟨kv, hkv, hm⟩ := attendeePass_mem ha
      rw [hm]
      exact date_of_mem_dateFilter hkv
    | none =>
      simp only [ha] at h
      cases hc : (if comp == "" then none else companyPass t comp (dateFilter d notes)) with
      | some m =>
        simp only [hc, Option.some.injEq] at h
        subst h
        split at hc
        · exact Option.noConfusion hc
        · obtain ⟨kv, hkv, hm⟩ := companyPass_mem hc
          rw [hm]
          exact date_of_mem_dateFilter hkv
      | none =>
        simp only [hc] at h
        split at h
        · exact Option.noConfusion h
        · obtain ⟨kv, hkv, hm⟩ := titlePass_mem h
          rw [hm]
          exact date_of_mem_dateFilter hkv

/-- Witness for C1: the date-gate theorem applied at a concrete matching
pair. -/
theorem date_gate_holds_witness : noteJohn.date = "2025-01-20" :=
  date_gate_holds "2025-01-20" "Acme Sync" ["john.smith@acme.com"] ""
    [("k1", noteJohn)] 60 noteJohn (by decide)

/-! ### Claim C2 -/

/-- Counterexample for C2: `meetingC2` and `specNoteC2` carry equal
external calendar-event identifiers, so the spec-side exact-id strategy
matches them; yet `match_meeting_to_note`, run exactly as
`get_notes_for_meetings` runs it, leaves the pair unmatched because their
text fields are dissimilar — the claimed identifier short-circuit does not
exist in the code. -/
theorem exact_id_short_circuit_refuted :
    specNoteC2.externalId = some meetingC2.eventId ∧
    specExactIdMatch meetingC2.eventId [specNoteC2] = some specNoteC2 ∧
    matchForMeeting meetingC2 [] [("k1", specNoteC2.base)] = none := by
  refine ⟨rfl, by decide, by decide⟩

/-- Claim C2 (amended): the matcher has no external-identifier strategy at
all — a note record carries no calendar-event identifier, the match
computed for a meeting is invariant under its event identifier, and a
meeting/note pair with equal external identifiers but dissimilar text
fields is left unmatched. -/
theorem no_exact_id_strategy :
    (∀ (m : Meeting) (i j : String) (deals : List (String × String))
        (notes : List (String × Note)),
      matchForMeeting { m with eventId := i } deals notes =
        matchForMeeting { m with eventId := j } deals notes) ∧
    matchForMeeting meetingC2 [] [("k1", noteC2)] = none := by
  exact ⟨fun m i j deals notes => rfl, by decide⟩

/-! ### Claim C3 -/

/-- Claim C3: for every meeting the identity strategies run over the
date-gated candidates in the fixed priority order attendee-name match,
then company-name match, then title match — a success of an earlier
strategy is returned as is and later strategies are never consulted, and
when the earlier strategies fail the result is exactly the next
strategy's — and in the attendee strategy a meeting attendee email is
compared by its local part with `.` converted to spaces and lower-cased,
accepted at score ≥ threshold. -/
theorem strategy_priority_order (d title : String) (attns : List String) (comp : String)
    (notes : List (String × Note)) (t : ℕ) :
    (∀ n : Note, attendeePass t attns (dateFilter d notes) = some n →
      matchMeetingToNote d title attns comp notes t = some n) ∧
    (∀ n : Note, attendeePass t attns (dateFilter d notes) = none →
      (if comp == "" then none else companyPass t comp (dateFilter d notes)) = some n →
      matchMeetingToNote d title attns comp notes t = some n) ∧
    (attendeePass t attns (dateFilter d notes) = none →
      (if comp == "" then none else companyPass t comp (dateFilter d notes)) = none →
      matchMeetingToNote d title attns comp notes t =
        (if title == "" then none else titlePass t title (dateFilter d notes))) ∧
    (∀ (k ma na : String) (note : Note), note.attendees = [na] →
      (attendeePass t [ma] [(k, note)] = some note ↔
        (t : ℚ) ≤ tokenSortScore (pyLower (emailNameOf ma)).toList (pyLower na).toList)) := by
  refine ⟨?_, ?_, ?_, ?_⟩
  · intro n h
    unfold matchMeetingToNote
    split
    · rename_i he
      rw [List.isEmpty_iff.mp he] at h
      simp [attendeePass] at h
    · rw [h]
  · intro n ha hc
    unfold matchMeetingToNote
    split
    · rename_i he
      rw [List.isEmpty_iff.mp he] at hc
      split at hc
      · exact Option.noConfusion hc
      · simp [companyPass] at hc
    · simp only [ha, hc]
  · intro ha hc
    unfold matchMeetingToNote
    split
    · rename_i he
      rw [List.isEmpty_iff.mp he]
      cases hb : (title == "") with
      | true => simp
      | false => simp [titlePass]
    · simp only [ha, hc]
  · intro k ma na note hna
    rw [← scoreAccept_iff]
    simp only [String.toList] at *
    cases hacc : scoreAccept t (pyLower (emailNameOf ma)).data (pyLower na).data with
    | false =>
      have hnone : attendeePass t [ma] [(k, note)] = none := by
        simp [attendeePass, hna, List.findSome?, String.toList, hacc]
      simp [hnone, hacc]
    | true =>
      have hsome : attendeePass t [ma] [(k, note)] = some note := by
        simp [attendeePass, hna, List.findSome?, String.toList, hacc]
      simp [hsome, hacc]

/-- Witness for C3: the first strategy succeeds on a concrete pair and its
result is the matcher's result. -/
theorem strategy_priority_order_witness :
    matchMeetingToNote "2025-01-20" "Acme Sync" ["john.smith@acme.com"] ""
      [("k1", noteJohn)] 60 = some noteJohn :=
  (strategy_priority_order "2025-01-20" "Acme Sync" ["john.smith@acme.com"] ""
    [("k1", noteJohn)] 60).1 noteJohn (by decide)

/-! ### Claim C4 -/

/-- A key of `dictInsert l k v` is `k` or a key of `l`. -/
theorem mem_keys_dictInsert {α : Type} {l : List (String × α)} {k a : String} {v : α}
    (h : a ∈ (dictInsert l k v).map (·.1)) : a = k ∨ a ∈ l.map (·.1) := by
  induction l with
  | nil =>
    simp only [dictInsert, List.map_cons, List.map_nil, List.mem_singleton] at h
    exact Or.inl h
  | cons hd tl ih =>
    obtain ⟨k0, v0⟩ := hd
    by_cases hk : k0 = k
    · simp only [dictInsert, hk, if_true, List.map_cons, List.mem_cons] at h
      rcases h with h | h
      · exact Or.inl h
      · exact Or.inr (by simp [h])
    · simp only [dictInsert, hk, if_false, List.map_cons, List.mem_cons] at h
      rcases h with h | h
      · exact Or.inr (by simp [h])
      · rcases ih h with h2 | h2
        · exact Or.inl h2
        · exact Or.inr (by simp [h2])

/-- `dictInsert` preserves uniqueness of the keys of an association list. -/
theorem dictInsert_keys_nodup {α : Type} {l : List (String × α)} {k : String} {v : α}
    (h : (l.map (·.1)).Nodup) : ((dictInsert l k v).map (·.1)).Nodup := by
  induction l with
  | nil => simp [dictInsert]
  | cons hd tl ih =>
    obtain ⟨k0, v0⟩ := hd
    simp only [List.map_cons, List.nodup_cons] at h
    obtain ⟨hk0, htl⟩ := h
    by_cases hk : k0 = k
    · subst hk
      simp only [dictInsert, if_true]
      simp only [List.map_cons, List.nodup_cons]
      exact ⟨hk0, htl⟩
    · simp only [dictInsert, hk, if_false, List.map_cons, List.nodup_cons]
      refine ⟨?_, ih htl⟩
      intro hmem
      rcases mem_keys_dictInsert hmem with h2 | h2
      · exact hk h2
      · exact hk0 h2

/-- Counterexample for C4: two distinct same-day meetings are both paired
with the single note `noteAcme` in one run of `get_notes_for_meetings` —
the claimed at-most-one-meeting-per-note invariant fails. -/
theorem note_shared_by_two_meetings :
    getNotesForMeetings [meetingAcme1, meetingAcme2] dealsAcme [("kA", noteAcme)] =
      [("acme-evt-1", (meetingAcme1, noteAcme)), ("acme-evt-2", (meetingAcme2, noteAcme))] ∧
    meetingAcme1 ≠ meetingAcme2 :=
  ⟨by decide, by decide⟩

/-- Claim C4 (amended): in the match set produced by one run, every meeting
(keyed by its event id) is paired with at most one note — the output keys
are unique — but a single note may be claimed by several meetings: the
matcher has no exclusivity guard. -/
theorem match_keys_unique (meetings : List Meeting) (deals : List (String × String))
    (notes : List (String × Note)) :
    ((getNotesForMeetings meetings deals notes).map (·.1)).Nodup := by
  unfold getNotesForMeetings
  split
  · simp
  · have main : ∀ (ms : List Meeting) (acc : List (String × Meeting × Note)),
        ((acc.map (·.1)).Nodup) →
        (((ms.foldl
            (fun matched m =>
              match matchForMeeting m deals notes with
              | some note => dictInsert matched m.eventId (m, note)
              | none => matched)
            acc).map (·.1)).Nodup) := by
      intro ms
      induction ms with
      | nil =>
        intro acc h
        simpa using h
      | cons m rest ih =>
        intro acc h
        simp only [List.foldl_cons]
        cases hm : matchForMeeting m deals notes with
        | some note =>
          simp only [hm]
          exact ih _ (dictInsert_keys_nodup h)
        | none =>
          simp only [hm]
          exact ih _ h
    exact main meetings [] (by simp)

/-! ### Claim C5 -/

/-- Counterexample for C5: the resolver takes the first tracked domain in
the set's iteration order, which the code never sorts.  Under the
iteration order `["zeta.com", "acme.com"]` — a possible iteration order of
the set `{"zeta.com", "acme.com"}` — the code resolves "Zeta Inc" while
the spec's sorted-first contract resolves "Acme Corp"; and the two
iteration orders of the same two-element set resolve different names, so
the result is not a function of the domain set alone. -/
theorem resolver_not_sorted :
    resolveCompany ["zeta.com", "acme.com"] dealsC5 = "Zeta Inc" ∧
    resolveCompanySpecSorted ["zeta.com", "acme.com"] dealsC5 = "Acme Corp" ∧
    resolveCompany ["zeta.com", "acme.com"] dealsC5 ≠
      resolveCompany ["acme.com", "zeta.com"] dealsC5 :=
  ⟨by decide, by decide, by decide⟩

/-- Claim C5 (amended): the resolved company name is the first tracked
entity name over the meeting's domains in their iteration order — which
the code does not sort, so reproducibility across runs is not guaranteed —
and is empty exactly when none of the meeting's domains is tracked. -/
theorem resolver_first_in_iteration_order :
    (∀ deals : List (String × String), resolveCompany [] deals = "") ∧
    (∀ (d : String) (rest : List String) (deals : List (String × String)) (name : String),
      lookupAL deals d = some name → resolveCompany (d :: rest) deals = name) ∧
    (∀ (d : String) (rest : List String) (deals : List (String × String)),
      lookupAL deals d = none → resolveCompany (d :: rest) deals = resolveCompany rest deals) ∧
    (∀ (domains : List String) (deals : List (String × String)),
      (∀ d ∈ domains, lookupAL deals d = none) → resolveCompany domains deals = "") := by
  refine ⟨fun _ => rfl, ?_, ?_, ?_⟩
  · intro d rest deals name h
    unfold resolveCompany
    rw [h]
  · intro d rest deals h
    show (match lookupAL deals d with
      | some name => name
      | none => resolveCompany rest deals) = resolveCompany rest deals
    rw [h]
  · intro domains deals h
    induction domains with
    | nil => rfl
    | cons d rest ih =>
      unfold resolveCompany
      rw [h d (by simp)]
      exact ih (fun x hx => h x (by simp [hx]))

/-- Witness for C5's amended theorem: first-match applied at a concrete
tracked head domain. -/
theorem resolver_first_in_iteration_order_witness :
    resolveCompany ["acme.com"] dealsAcme = "Acme Corp" :=
  resolver_first_in_iteration_order.2.1 "acme.com" [] dealsAcme "Acme Corp" (by decide)

/-! ### Claim C6 -/

/-- The attendee strategy on a single candidate note with a single
attendee on each side reduces to its score gate. -/
theorem attendeePass_single (t : ℕ) (k ma na : String) (note : Note)
    (hna : note.attendees = [na]) :
    (scoreAccept t (pyLower (emailNameOf ma)).toList (pyLower na).toList = true →
      attendeePass t [ma] [(k, note)] = some note) ∧
    (scoreAccept t (pyLower (emailNameOf ma)).toList (pyLower na).toList = false →
      attendeePass t [ma] [(k, note)] = none) := by
  constructor <;> intro hacc <;> simp only [String.toList] at hacc <;>
    simp [attendeePass, hna, List.findSome?, String.toList, hacc]

/-- The company strategy on a single candidate note with a company label
and no attendee names reduces to its score gate. -/
theorem companyPass_single (t : ℕ) (k c : String) (note : Note)
    (hatt : note.attendees = []) (hc : note.company ≠ "") :
    (scoreAccept t (pyLower c).toList (pyLower note.company).toList = true →
      companyPass t c [(k, note)] = some note) ∧
    (scoreAccept t (pyLower c).toList (pyLower note.company).toList = false →
      companyPass t c [(k, note)] = none) := by
  constructor <;> intro hacc <;> simp only [String.toList] at hacc <;>
    simp [companyPass, hatt, hc, List.findSome?, String.toList, hacc]

/-- The title strategy on a single candidate note with no company label
and no attendee names reduces to its score gate against the synthesized
descriptor. -/
theorem titlePass_single (t : ℕ) (k ttl : String) (note : Note)
    (hatt : note.attendees = []) (hc : note.company = "") :
    (scoreAccept t (pyLower ttl).toList (pyLower (noteDesc note)).toList = true →
      titlePass t ttl [(k, note)] = some note) ∧
    (scoreAccept t (pyLower ttl).toList (pyLower (noteDesc note)).toList = false →
      titlePass t ttl [(k, note)] = none) := by
  constructor <;> intro hacc <;> simp only [String.toList] at hacc <;>
    simp [titlePass, hatt, hc, List.findSome?, String.toList, hacc]

/-- A score exactly at the threshold passes the acceptance test. -/
theorem scoreAccept_true_of_eq {t : ℕ} {a b : List Char}
    (h : tokenSortScore a b = (t : ℚ)) : scoreAccept t a b = true :=
  (scoreAccept_iff t a b).mpr (le_of_eq h.symm)

/-- A score one point below the threshold fails the acceptance test. -/
theorem scoreAccept_false_of_eq_pred {t : ℕ} {a b : List Char}
    (h : tokenSortScore a b = (t : ℚ) - 1) : scoreAccept t a b = false := by
  rw [Bool.eq_false_iff]
  intro htrue
  have hle := (scoreAccept_iff t a b).mp htrue
  rw [h] at hle
  linarith [sub_one_lt (t : ℚ)]

/-- Claim C6: in every fuzzy-matching strategy (attendee, company and
title), a candidate whose similarity score is exactly the threshold is
accepted, and a candidate scoring one point below the threshold is
rejected — the gate is `score ≥ threshold`. -/
theorem threshold_boundary (t : ℕ) :
    (∀ (k ma na : String) (note : Note), note.attendees = [na] →
      tokenSortScore (pyLower (emailNameOf ma)).toList (pyLower na).toList = (t : ℚ) →
      attendeePass t [ma] [(k, note)] = some note) ∧
    (∀ (k ma na : String) (note : Note), note.attendees = [na] →
      tokenSortScore (pyLower (emailNameOf ma)).toList (pyLower na).toList = (t : ℚ) - 1 →
      attendeePass t [ma] [(k, note)] = none) ∧
    (∀ (k c : String) (note : Note), note.attendees = [] → note.company ≠ "" →
      tokenSortScore (pyLower c).toList (pyLower note.company).toList = (t : ℚ) →
      companyPass t c [(k, note)] = some note) ∧
    (∀ (k c : String) (note : Note), note.attendees = [] → note.company ≠ "" →
      tokenSortScore (pyLower c).toList (pyLower note.company).toList = (t : ℚ) - 1 →
      companyPass t c [(k, note)] = none) ∧
    (∀ (k ttl : String) (note : Note), note.attendees = [] → note.company = "" →
      tokenSortScore (pyLower ttl).toList (pyLower (noteDesc note)).toList = (t : ℚ) →
      titlePass t ttl [(k, note)] = some note) ∧
    (∀ (k ttl : String) (note : Note), note.attendees = [] → note.company = "" →
      tokenSortScore (pyLower ttl).toList (pyLower (noteDesc note)).toList = (t : ℚ) - 1 →
      titlePass t ttl [(k, note)] = none) := by
  refine ⟨?_, ?_, ?_, ?_, ?_, ?_⟩
  · intro k ma na note hna hs
    exact (attendeePass_single t k ma na note hna).1 (scoreAccept_true_of_eq hs)
  · intro k ma na note hna hs
    exact (attendeePass_single t k ma na note hna).2 (scoreAccept_false_of_eq_pred hs)
  · intro k c note hatt hc hs
    exact (companyPass_single t k c note hatt hc).1 (scoreAccept_true_of_eq hs)
  · intro k c note hatt hc hs
    exact (companyPass_single t k c note hatt hc).2 (scoreAccept_false_of_eq_pred hs)
  · intro k ttl note hatt hc hs
    exact (titlePass_single t k ttl note hatt hc).1 (scoreAccept_true_of_eq hs)
  · intro k ttl note hatt hc hs
    exact (titlePass_single t k ttl note hatt hc).2 (scoreAccept_false_of_eq_pred hs)

/-- Witness for C6: at threshold 25, a pair scoring exactly 25
(lcs 1 over lengths 4 + 4) is accepted and a pair scoring exactly 24
(lcs 3 over lengths 12 + 13) is rejected. -/
theorem threshold_boundary_witness :
    attendeePass 25 ["abbb"] [("k", noteScore25)] = some noteScore25 ∧
    attendeePass 25 ["aaabbbbbbbbb"] [("k", noteScore24)] = none := by
  constructor
  · refine (threshold_boundary 25).1 "k" "abbb" "accc" noteScore25 rfl ?_
    rw [show (pyLower (emailNameOf "abbb")).toList = "abbb".toList from by decide,
      show (pyLower "accc").toList = "accc".toList from by decide]
    unfold tokenSortScore
    rw [show tokenSortJoin "abbb".toList = "abbb".toList from by decide,
      show tokenSortJoin "accc".toList = "accc".toList from by decide,
      show lcsLen "abbb".toList "accc".toList = 1 from by decide,
      show ("abbb".toList).length = 4 from by decide,
      show ("accc".toList).length = 4 from by decide]
    norm_num
  · refine (threshold_boundary 25).2.1 "k" "aaabbbbbbbbb" "aaacccccccccc" noteScore24 rfl ?_
    rw [show (pyLower (emailNameOf "aaabbbbbbbbb")).toList = "aaabbbbbbbbb".toList from by decide,
      show (pyLower "aaacccccccccc").toList = "aaacccccccccc".toList from by decide]
    unfold tokenSortScore
    rw [show tokenSortJoin "aaabbbbbbbbb".toList = "aaabbbbbbbbb".toList from by decide,
      show tokenSortJoin "aaacccccccccc".toList = "aaacccccccccc".toList from by decide,
      show lcsLen "aaabbbbbbbbb".toList "aaacccccccccc".toList = 3 from by decide,
      show ("aaabbbbbbbbb".toList).length = 12 from by decide,
      show ("aaacccccccccc".toList).length = 13 from by decide]
    norm_num

/-! ### Claim C7 -/

/-- The meeting-notes fold of `build_context` adds nothing when no matched
meeting involves the entity's domain. -/
theorem contextParts_nil {dom : String} :
    ∀ (l : List (String × Meeting × Note)) (acc : List String),
    (∀ kv ∈ l, kv.2.1.domains.contains dom = false) →
    l.foldl
      (fun acc kv =>
        if kv.2.1.domains.contains dom then
          acc ++ [meetingHeader kv.2.1, kv.2.2.content, ""]
        else acc)
      acc = acc := by
  intro l
  induction l with
  | nil => intro acc _; rfl
  | cons hd tl ih =>
    intro acc h
    simp only [List.foldl_cons, h hd (by simp), Bool.false_eq_true, if_false]
    exact ih acc (fun kv hkv => h kv (by simp [hkv]))

/-- The call log of one `synthesize_updates` loop: every logged call has a
non-blank context that is the context built for one of the entities. -/
theorem synthCalls_spec (synth : String → String → String → String) (etype : String)
    (data : ReportData) :
    ∀ (entities : List (String × String))
      (acc : List (String × String) × List (String × String)) (ctx nm : String),
    (ctx, nm) ∈ (entities.foldl
      (fun acc entry =>
        let context := buildContext entry.1 entry.2 data
        if pyStrip context != "" then
          let summary := synth context entry.2 etype
          ((if !(pyStartsWith "Error:" summary) then dictInsert acc.1 entry.2 summary
            else acc.1),
           acc.2 ++ [(context, entry.2)])
        else acc)
      acc).2 →
    (ctx, nm) ∈ acc.2 ∨
      (pyStrip ctx ≠ "" ∧ ∃ dom, (dom, nm) ∈ entities ∧ ctx = buildContext dom nm data) := by
  intro entities
  induction entities with
  | nil =>
    intro acc ctx nm h
    exact Or.inl h
  | cons e rest ih =>
    intro acc ctx nm h
    simp only [List.foldl_cons] at h
    cases hcond : (pyStrip (buildContext e.1 e.2 data) != "") with
    | false =>
      simp only [hcond, Bool.false_eq_true, if_false] at h
      rcases ih _ ctx nm h with h2 | h2
      · exact Or.inl h2
      · obtain ⟨hne, dom, hdom, hctx⟩ := h2
        exact Or.inr ⟨hne, dom, by simp [hdom], hctx⟩
    | true =>
      simp only [hcond, if_true] at h
      rcases ih _ ctx nm h with h2 | h2
      · simp only [List.mem_append, List.mem_singleton] at h2
        rcases h2 with h2 | h2
        · exact Or.inl h2
        · have hctx : ctx = buildContext e.1 e.2 data := congrArg Prod.fst h2
          have hnm : nm = e.2 := congrArg Prod.snd h2
          subst hnm
          refine Or.inr ⟨?_, e.1, by simp, hctx⟩
          rw [hctx]
          simpa using hcond
      · obtain ⟨hne, dom, hdom, hctx⟩ := h2
        exact Or.inr ⟨hne, dom, by simp [hdom], hctx⟩

/-- Claim C7: `build_context` returns the empty string when no matched
note's meeting involves the entity's domain and there is no
correspondence; with exactly one such matched note and no correspondence
it returns exactly the note's content prefixed by the meeting header
(date and title) — no correspondence header is appended; and
`synthesize_updates` invokes synthesis only on entities whose built
context is non-blank. -/
theorem build_context_spec :
    (∀ (dom nm : String) (data : ReportData),
      (∀ kv ∈ data.meetingsWithNotes, kv.2.1.domains.contains dom = false) →
      lookupAL data.dealEmails dom = none →
      lookupAL data.agencyEmails dom = none →
      lookupAL data.techEmails dom = none →
      buildContext dom nm data = "") ∧
    (∀ (dom nm k : String) (m : Meeting) (note : Note) (data : ReportData),
      data.meetingsWithNotes = [(k, (m, note))] →
      m.domains.contains dom = true →
      lookupAL data.dealEmails dom = none →
      lookupAL data.agencyEmails dom = none →
      lookupAL data.techEmails dom = none →
      buildContext dom nm data = meetingHeader m ++ "\n" ++ note.content ++ "\n") ∧
    (∀ (synth : String → String → String → String) (etype : String)
        (entities : List (String × String)) (data : ReportData) (ctx nm : String),
      (ctx, nm) ∈ (synthPassFull synth etype entities data).2 →
      pyStrip ctx ≠ "" ∧ ∃ dom, (dom, nm) ∈ entities ∧ ctx = buildContext dom nm data) := by
  refine ⟨?_, ?_, ?_⟩
  · intro dom nm data hno h1 h2 h3
    unfold buildContext entityEmails
    rw [contextParts_nil data.meetingsWithNotes [] hno]
    simp [h1, h2, h3, appendEmails, pyJoin]
  · intro dom nm k m note data hdata hcont h1 h2 h3
    unfold buildContext entityEmails
    rw [hdata]
    simp only [List.foldl_cons, List.foldl_nil, hcont, if_true, List.nil_append]
    simp only [h1, h2, h3, appendEmails, pyJoin]
    simp [String.append_assoc]
  · intro synth etype entities data ctx nm h
    unfold synthPassFull at h
    rcases synthCalls_spec synth etype data entities ([], []) ctx nm h with h2 | h2
    · cases h2
    · exact h2

/-- Witness for C7: the one-matched-note case evaluated on concrete data
with no correspondence. -/
theorem build_context_spec_witness :
    buildContext "acme.com" "Acme Corp" dataC7 =
      meetingHeader meetingAcme1 ++ "\n" ++ noteAcme.content ++ "\n" :=
  build_context_spec.2.1 "acme.com" "Acme Corp" "acme-evt-1" meetingAcme1 noteAcme dataC7
    rfl (by decide) rfl rfl rfl

/-! ### Claim C8 -/

/-- Claim C8 (code-bug evidence): on the spec's own scenario input, the
assembler does not produce `(Activity, "Shipped v2")`.  The bullet-strip
regex `^[-*•]\s*` consumes one asterisk of the leading `**`, the bold pair
regex then fails to match, and the italic pair regex rewrites
`*Activity:** Shipped v2` to `Activity:* Shipped v2`, so the parsed
Activity field keeps a stray `"* "` prefix while its own docstring and the
spec promise markdown-free content. -/
theorem parse_sections_bold_label_bug :
    parseContentSections "**Activity:** Shipped v2\nRisks: none" =
      [("Activity", "* Shipped v2"), ("Risks", "none")] ∧
    parseContentSections "**Activity:** Shipped v2\nRisks: none" ≠
      [("Activity", "Shipped v2"), ("Risks", "none")] :=
  ⟨by decide, by decide⟩

/-! ### Claim C9 -/

/-- A prefix stays a prefix under appending on the right. -/
theorem needleLeads_append_of {xs : List Char} :
    ∀ {ys : List Char} (zs : List Char), needleLeads xs ys = true →
      needleLeads xs (ys ++ zs) = true := by
  induction xs with
  | nil => intro ys zs _; rfl
  | cons a as ih =>
    intro ys zs h
    cases ys with
    | nil => exact absurd h (by simp [needleLeads])
    | cons b bs =>
      simp only [needleLeads, Bool.and_eq_true] at h
      simp only [List.cons_append, needleLeads, Bool.and_eq_true]
      exact ⟨h.1, ih zs h.2⟩

/-- Looking up the inserted key yields the inserted value. -/
theorem lookupAL_dictInsert_self {α : Type} (l : List (String × α)) (k : String) (v : α) :
    lookupAL (dictInsert l k v) k = some v := by
  induction l with
  | nil => simp [dictInsert, lookupAL]
  | cons hd tl ih =>
    obtain ⟨k0, v0⟩ := hd
    by_cases hk : k0 = k
    · simp [dictInsert, hk, lookupAL]
    · simp [dictInsert, hk, lookupAL, ih]

/-- Inserting under a different key does not change a lookup. -/
theorem lookupAL_dictInsert_ne {α : Type} (l : List (String × α)) {k n : String} (v : α)
    (hne : k ≠ n) : lookupAL (dictInsert l k v) n = lookupAL l n := by
  induction l with
  | nil => simp [dictInsert, lookupAL, hne]
  | cons hd tl ih =>
    obtain ⟨k0, v0⟩ := hd
    by_cases hk : k0 = k
    · subst hk
      simp [dictInsert, lookupAL, hne]
    · simp [dictInsert, hk, lookupAL, ih]

/-- The updates component of the `synthesize_updates` fold does not depend
on the call-log component of the accumulator. -/
theorem synthFold_fst (synth : String → String → String → String) (etype : String)
    (data : ReportData) :
    ∀ (entities : List (String × String)) (u : List (String × String))
      (l l' : List (String × String)),
    (entities.foldl
      (fun acc entry =>
        let context := buildContext entry.1 entry.2 data
        if pyStrip context != "" then
          let summary := synth context entry.2 etype
          ((if !(pyStartsWith "Error:" summary) then dictInsert acc.1 entry.2 summary
            else acc.1),
           acc.2 ++ [(context, entry.2)])
        else acc)
      (u, l)).1 =
    (entities.foldl
      (fun acc entry =>
        let context := buildContext entry.1 entry.2 data
        if pyStrip context != "" then
          let summary := synth context entry.2 etype
          ((if !(pyStartsWith "Error:" summary) then dictInsert acc.1 entry.2 summary
            else acc.1),
           acc.2 ++ [(context, entry.2)])
        else acc)
      (u, l')).1 := by
  intro entities
  induction entities with
  | nil => intro u l l'; rfl
  | cons e rest ih =>
    intro u l l'
    simp only [List.foldl_cons]
    cases hcond : (pyStrip (buildContext e.1 e.2 data) != "") with
    | false =>
      simp only [hcond, Bool.false_eq_true, if_false]
      exact ih u l l'
    | true =>
      simp only [hcond, if_true]
      exact ih _ _ _

/-- Entities whose names differ from `n` never touch the entry of `n` in
the updates mapping. -/
theorem synthFold_lookup (synth : String → String → String → String) (etype : String)
    (data : ReportData) (n : String) :
    ∀ (entities : List (String × String))
      (acc : List (String × String) × List (String × String)),
    (∀ e ∈ entities, e.2 ≠ n) →
    lookupAL (entities.foldl
      (fun acc entry =>
        let context := buildContext entry.1 entry.2 data
        if pyStrip context != "" then
          let summary := synth context entry.2 etype
          ((if !(pyStartsWith "Error:" summary) then dictInsert acc.1 entry.2 summary
            else acc.1),
           acc.2 ++ [(context, entry.2)])
        else acc)
      acc).1 n = lookupAL acc.1 n := by
  intro entities
  induction entities with
  | nil => intro acc _; rfl
  | cons e rest ih =>
    intro acc h
    simp only [List.foldl_cons]
    cases hcond : (pyStrip (buildContext e.1 e.2 data) != "") with
    | false =>
      simp only [hcond, Bool.false_eq_true, if_false]
      exact ih acc (fun x hx => h x (by simp [hx]))
    | true =>
      simp only [hcond, if_true]
      rw [ih _ (fun x hx => h x (by simp [hx]))]
      cases herr : (!(pyStartsWith "Error:" (synth (buildContext e.1 e.2 data) e.2 etype))) with
      | false => simp only [herr, Bool.false_eq_true, if_false]
      | true =>
        simp only [herr, if_true]
        exact lookupAL_dictInsert_ne acc.1 _ (h e (by simp))

/-- Claim C9: synthesis failure is signalled by an `"Error:"`-prefixed
return value rather than by raising; `synthesize_updates` skips an entity
whose synthesis fails (or whose context is blank) without disturbing the
rest of the run, never stores an `"Error:"`-prefixed summary, removing a
failing entity from the input changes nothing, and an entity with
non-blank context and successful synthesis is mapped to exactly its
summary. -/
theorem synthesis_error_handling :
    (∀ o : OllamaOutcome, (∀ s b, o = OllamaOutcome.httpResponse s b → s ≠ 200) →
      pyStartsWith "Error:" (synthesizeFromOutcome o) = true) ∧
    (∀ (synth : String → String → String → String) (etype : String)
        (pre : List (String × String)) (entry : String × String)
        (post : List (String × String)) (data : ReportData),
      (pyStrip (buildContext entry.1 entry.2 data) = "" ∨
        pyStartsWith "Error:" (synth (buildContext entry.1 entry.2 data) entry.2 etype) = true) →
      synthPass synth etype (pre ++ entry :: post) data = synthPass synth etype (pre ++ post) data) ∧
    (∀ (synth : String → String → String → String) (etype : String)
        (entities : List (String × String)) (data : ReportData) (n : String),
      (∀ e ∈ entities, e.2 ≠ n) →
      lookupAL (synthPass synth etype entities data) n = none) ∧
    (∀ (synth : String → String → String → String) (etype : String)
        (pre : List (String × String)) (dom n : String)
        (post : List (String × String)) (data : ReportData),
      (∀ e ∈ post, e.2 ≠ n) →
      pyStrip (buildContext dom n data) ≠ "" →
      pyStartsWith "Error:" (synth (buildContext dom n data) n etype) = false →
      lookupAL (synthPass synth etype (pre ++ (dom, n) :: post) data) n =
        some (synth (buildContext dom n data) n etype)) := by
  refine ⟨?_, ?_, ?_, ?_⟩
  · intro o ho
    cases o with
    | timeout => decide
    | connectError e =>
      show needleLeads "Error:".toList (("Error: Could not connect to Ollama - " ++ e).toList) = true
      rw [show ("Error: Could not connect to Ollama - " ++ e).toList =
        "Error: Could not connect to Ollama - ".toList ++ e.toList from rfl]
      exact needleLeads_append_of _ (by decide)
    | httpResponse s b =>
      have hs : s ≠ 200 := ho s b rfl
      have hbne : (s != 200) = true := by simpa using hs
      show pyStartsWith "Error:"
        (if s != 200 then "Error: Ollama returned status " ++ toString s else pyStrip b) = true
      rw [if_pos hbne]
      show needleLeads "Error:".toList (("Error: Ollama returned status " ++ toString s).toList) = true
      rw [show ("Error: Ollama returned status " ++ toString s).toList =
        "Error: Ollama returned status ".toList ++ (toString s).toList from rfl]
      exact needleLeads_append_of _ (by decide)
  · intro synth etype pre entry post data hskip
    unfold synthPass synthPassFull
    rw [List.foldl_append, List.foldl_append, List.foldl_cons]
    cases hcond : (pyStrip (buildContext entry.1 entry.2 data) != "") with
    | false =>
      simp only [hcond, Bool.false_eq_true, if_false]
    | true =>
      have herr : pyStartsWith "Error:" (synth (buildContext entry.1 entry.2 data) entry.2 etype) = true := by
        rcases hskip with hb | he
        · rw [hb] at hcond
          simp [pyStrip, trimWs] at hcond
        · exact he
      simp only [hcond, if_true, herr, Bool.not_true, Bool.false_eq_true, if_false]
      exact synthFold_fst synth etype data post _ _ _
  · intro synth etype entities data n h
    unfold synthPass synthPassFull
    rw [synthFold_lookup synth etype data n entities ([], []) h]
    rfl
  · intro synth etype pre dom n post data hpost hctx herr
    unfold synthPass synthPassFull
    rw [List.foldl_append, List.foldl_cons]
    rw [synthFold_lookup synth etype data n post _ hpost]
    have hcond : (pyStrip (buildContext dom n data) != "") = true := by simpa using hctx
    simp only [hcond, if_true, herr, Bool.not_false, if_true]
    exact lookupAL_dictInsert_self _ _ _

/-- Witness for C9: a timeout outcome is signalled by an error-prefixed
string. -/
theorem synthesis_error_handling_witness :
    pyStartsWith "Error:" (synthesizeFromOutcome OllamaOutcome.timeout) = true :=
  synthesis_error_handling.1 OllamaOutcome.timeout
    (fun _ _ h => OllamaOutcome.noConfusion h)

/-! ### Claim C10 -/

/-- Claim C10: `is_internal_only` returns `True` on an empty attendee
list, so `fetch_meetings` excludes events with no attendees — they are
classified as internal-only even though no attendee of theirs belongs to
the internal domain — and dropping all such events from the input leaves
the output unchanged. -/
theorem no_attendee_events_excluded :
    (∀ internalDomain : String, isInternalOnly [] internalDomain = true) ∧
    (∀ (internalDomain : String) (e : CalEvent), e.attendees = [] →
      processEvent internalDomain e = none) ∧
    (∀ (internalDomain : String) (events : List CalEvent),
      fetchMeetings events internalDomain =
        fetchMeetings (events.filter (fun e => !e.attendees.isEmpty)) internalDomain) := by
  have hnone : ∀ (internalDomain : String) (e : CalEvent), e.attendees = [] →
      processEvent internalDomain e = none := by
    intro internalDomain e h
    unfold processEvent
    split
    · rfl
    · cases hst : e.startDateTime with
      | none => rfl
      | some st =>
        have hint : isInternalOnly e.attendees internalDomain = true := by
          rw [h]
          rfl
        simp [hint]
  refine ⟨fun _ => rfl, hnone, ?_⟩
  intro internalDomain events
  induction events with
  | nil => rfl
  | cons e rest ih =>
    unfold fetchMeetings at ih ⊢
    cases hatt : e.attendees.isEmpty with
    | true =>
      have hnil : e.attendees = [] := List.isEmpty_iff.mp hatt
      simp only [List.filter_cons, hatt, Bool.not_true, Bool.false_eq_true, if_false,
        List.filterMap_cons, hnone internalDomain e hnil]
      exact ih
    | false =>
      simp only [List.filter_cons, hatt, Bool.not_false, if_true, List.filterMap_cons]
      cases processEvent internalDomain e <;> simp [ih]

/-- Witness for C10: a concrete attendee-less event is dropped. -/
theorem no_attendee_events_excluded_witness :
    processEvent "folloze.com" eventNoAttendees = none :=
  no_attendee_events_excluded.2.1 "folloze.com" eventNoAttendees rfl
